import Mathlib

/-!
Verification of the GhostWire relay server and client state model.

The definitions below are a shallow embedding of the Rust sources:
`server/src/relay.rs` (connection registry and broadcast fan-out) and
`client/src/{app.rs, network.rs, main.rs}` (state model, wire protocol
translation, and the interactive input handler).  Rust `HashMap`s are
embedded as association lists, `VecDeque` as `List`, `String` as Lean
`String` (a sequence of characters), integers as `Nat`/`Int`, and the
wall clock (`Utc::now()`) as an explicit `now : Int` parameter.  Tokio
mpsc queues are embedded by storing each receiver's state in its
registry entry: `isOpen` records whether the receiving half is still
alive, and `queue` holds the messages enqueued so far; `send` on a
closed queue is the error case of `mpsc::UnboundedSender::send`.
-/

/-! ### Server: `server/src/relay.rs` -/

/-- Registry entry for one connected client: its id, whether the
receiving half of its outbound mpsc queue is still open, and the
messages enqueued to it so far. -/
structure ClientEntry where
  id : Nat
  isOpen : Bool
  queue : List String
deriving DecidableEq

/-- Embedding of `BroadcastMessage { from, content }`. -/
structure BroadcastMessage where
  fromId : Nat
  content : String
deriving DecidableEq

/-- Embedding of `RelayState`: the client map (association by id) and
the id counter. -/
structure RelayState where
  clients : List ClientEntry
  nextClientId : Nat
deriving DecidableEq

/-- Embedding of `RelayState::new`. -/
def RelayState.new : RelayState :=
  { clients := [], nextClientId := 0 }

/-- Embedding of `RelayState::next_id`: returns the current counter and
increments it. -/
def RelayState.next_id (st : RelayState) : RelayState × Nat :=
  ({ st with nextClientId := st.nextClientId + 1 }, st.nextClientId)

/-- Embedding of `RelayState::register_client`: allocate the next id and
insert a fresh open entry with an empty queue.  `HashMap::insert`
replaces any entry with the same key, hence the filter-then-append. -/
def RelayState.register_client (st : RelayState) : RelayState × Nat :=
  let p := st.next_id
  ({ p.1 with clients := p.1.clients.filter (fun e => e.id != p.2) ++ [⟨p.2, true, []⟩] }, p.2)

/-- Embedding of `RelayState::unregister_client`: remove the mapping
unconditionally. -/
def RelayState.unregister_client (st : RelayState) (id : Nat) : RelayState :=
  { st with clients := st.clients.filter (fun e => e.id != id) }

/-- Embedding of `RelayState::client_count`. -/
def RelayState.client_count (st : RelayState) : Nat :=
  st.clients.length

/-- Phase 1 of `RelayState::broadcast`: attempt a non-blocking enqueue
to every entry except the origin; a send to a closed queue fails and
leaves the queue untouched. -/
def fanOutPass (fromId : Nat) (content : String) (cs : List ClientEntry) : List ClientEntry :=
  cs.map (fun e =>
    if e.id ≠ fromId ∧ e.isOpen = true then { e with queue := e.queue ++ [content] } else e)

/-- The `failed_clients` vector of `RelayState::broadcast`: ids of the
non-origin entries whose enqueue failed (receiver gone). -/
def failedClients (fromId : Nat) (cs : List ClientEntry) : List Nat :=
  (cs.filter (fun e => decide (e.id ≠ fromId) && !e.isOpen)).map ClientEntry.id

/-- Embedding of `RelayState::broadcast` on the client list: fan out to
every entry except the sender, then remove the entries whose enqueue
failed. -/
def broadcastClients (fromId : Nat) (content : String) (cs : List ClientEntry) : List ClientEntry :=
  (fanOutPass fromId content cs).filter (fun e => !((failedClients fromId cs).contains e.id))

/-- Embedding of `RelayState::broadcast`.  The function is total: no
delivery failure is surfaced to the caller. -/
def RelayState.broadcast (st : RelayState) (msg : BroadcastMessage) : RelayState :=
  { st with clients := broadcastClients msg.fromId msg.content st.clients }

/-- Lookup of a client's registry entry by id. -/
def lookupClient (st : RelayState) (id : Nat) : Option ClientEntry :=
  st.clients.find? (fun e => e.id == id)

/-! ### String helpers

Rust `str` operations used by the client, embedded over a string's
character sequence (UTF-8 byte order coincides with code-point order,
so character-wise lexicographic comparison matches Rust's `str`
ordering). -/

/-- Lexicographic comparison of character sequences, by code point. -/
def charsLt : List Char → List Char → Bool
  | [], [] => false
  | [], _ :: _ => true
  | _ :: _, [] => false
  | a :: as, b :: bs => if a < b then true else if b < a then false else charsLt as bs

/-- Embedding of Rust `<` on strings. -/
def strLt (s t : String) : Bool :=
  charsLt s.data t.data

/-- Embedding of Rust `str::starts_with`. -/
def strStartsWith (pre s : String) : Bool :=
  pre.data.isPrefixOf s.data

/-- Embedding of Rust `str::contains` (substring containment). -/
def strContains (s needle : String) : Bool :=
  s.data.tails.any (fun t => needle.data.isPrefixOf t)

/-- Splitting of a character sequence at a separator; every separator
occurrence produces a boundary, so the empty sequence yields `[[]]`,
matching Rust `str::split`. -/
def splitChars (sep : Char) : List Char → List (List Char)
  | [] => [[]]
  | c :: cs =>
    match splitChars sep cs with
    | [] => if c = sep then [[], []] else [[c]]
    | h :: t => if c = sep then [] :: h :: t else (c :: h) :: t

/-- Embedding of Rust `str::split` with a character separator. -/
def strSplit (sep : Char) (s : String) : List String :=
  (splitChars sep s.data).map String.mk

/-! ### Client data model: `client/src/app.rs` -/

/-- Embedding of the `MAX_MESSAGES` constant. -/
def MAX_MESSAGES : Nat := 1000

/-- Embedding of `MessageType`. -/
inductive MessageType where
  | Message
  | Auth
  | System
deriving DecidableEq

/-- Embedding of `MessageMeta`. -/
structure MessageMeta where
  sender : String
  timestamp : Int
deriving DecidableEq

/-- Embedding of `WireMessage`. -/
structure WireMessage where
  msg_type : MessageType
  payload : String
  channel : String
  meta : MessageMeta
deriving DecidableEq

/-- Embedding of `default_channel`. -/
def default_channel : String := "global"

/-- Embedding of `ChatMessage`; the `Utc::now()` clock of
`ChatMessage::new` is passed explicitly as `timestamp`. -/
structure ChatMessage where
  sender : String
  content : String
  timestamp : Int
  is_system : Bool
deriving DecidableEq

/-- Embedding of `ChatMessage::new` with the clock made explicit. -/
def ChatMessage.new (sender content : String) (is_system : Bool) (now : Int) : ChatMessage :=
  { sender := sender, content := content, timestamp := now, is_system := is_system }

/-- Embedding of `ChatMessage::system`. -/
def ChatMessage.system (content : String) (now : Int) : ChatMessage :=
  ChatMessage.new "SYSTEM" content true now

/-- Embedding of `User`; the clock of `User::new` is explicit. -/
structure User where
  username : String
  is_online : Bool
  last_seen : Int
deriving DecidableEq

/-- Embedding of `User::new`. -/
def User.new (username : String) (now : Int) : User :=
  { username := username, is_online := true, last_seen := now }

/-- Embedding of `ChannelType`. -/
inductive ChannelType where
  | Global
  | DirectMessage (other_user : String)
  | Group (name : String) (members : List String)
deriving DecidableEq

/-- Embedding of `Channel`; the `VecDeque` of messages is a list, front
at the head. -/
structure Channel where
  id : String
  channel_type : ChannelType
  messages : List ChatMessage
  unread_count : Nat
deriving DecidableEq

/-- Embedding of `Channel::global`. -/
def Channel.global : Channel :=
  { id := "global", channel_type := .Global, messages := [], unread_count := 0 }

/-- Embedding of `Channel::dm`: sort the two usernames for a consistent
channel id `dm:user1:user2`. -/
def Channel.dm (current_user : String) (other_user : String) : Channel :=
  let p := if strLt current_user other_user = true
    then (current_user, other_user) else (other_user, current_user)
  { id := "dm:" ++ p.1 ++ ":" ++ p.2
    channel_type := .DirectMessage other_user
    messages := []
    unread_count := 0 }

/-- Embedding of `Channel::group`. -/
def Channel.group (name : String) (members : List String) : Channel :=
  { id := "group:" ++ name, channel_type := .Group name members, messages := [], unread_count := 0 }

/-- Embedding of `Channel::add_message`: push to the back; if the deque
now exceeds `MAX_MESSAGES`, pop the front. -/
def Channel.add_message (ch : Channel) (message : ChatMessage) : Channel :=
  let msgs := ch.messages ++ [message]
  if msgs.length > MAX_MESSAGES then { ch with messages := msgs.tail }
  else { ch with messages := msgs }

/-- Embedding of `Telemetry`. -/
structure Telemetry where
  messages_sent : Nat
  messages_received : Nat
  bytes_sent : Nat
  bytes_received : Nat
  connection_uptime : Nat
  latency_ms : Nat
  network_activity : List Nat
deriving DecidableEq

/-- Embedding of `Telemetry::default`. -/
def Telemetry.default : Telemetry :=
  { messages_sent := 0, messages_received := 0, bytes_sent := 0, bytes_received := 0
    connection_uptime := 0, latency_ms := 0, network_activity := List.replicate 60 0 }

/-- Embedding of `InputMode`. -/
inductive InputMode where
  | Normal
  | Editing
deriving DecidableEq

/-- Embedding of `App`; the channel `HashMap` is an association list
keyed by channel id. -/
structure App where
  username : String
  channels : List (String × Channel)
  active_channel : String
  selected_channel : Nat
  input : String
  input_cursor : Nat
  input_mode : InputMode
  users : List User
  selected_user : Nat
  scroll_position : Nat
  telemetry : Telemetry
  is_connected : Bool
  should_quit : Bool
deriving DecidableEq

/-- Lookup in the channel map (`HashMap::get`). -/
def lookupCh (channel_id : String) (chs : List (String × Channel)) : Option Channel :=
  (chs.find? (fun p => p.1 == channel_id)).map Prod.snd

/-- Key-membership test in the channel map (`HashMap::contains_key`). -/
def containsCh (channel_id : String) (chs : List (String × Channel)) : Bool :=
  (chs.find? (fun p => p.1 == channel_id)).isSome

/-- In-place update of the entry for a key (`HashMap::get_mut` followed
by mutation of the borrowed channel). -/
def updCh (channel_id : String) (f : Channel → Channel) (chs : List (String × Channel)) :
    List (String × Channel) :=
  chs.map (fun p => if p.1 = channel_id then (p.1, f p.2) else p)

/-- Insertion into the channel map (`HashMap::insert`): replaces any
entry with the same key. -/
def insertCh (channel_id : String) (ch : Channel) (chs : List (String × Channel)) :
    List (String × Channel) :=
  chs.filter (fun p => p.1 != channel_id) ++ [(channel_id, ch)]

/-- Embedding of `App::new` with the clock explicit. -/
def App.new (username : String) (now : Int) : App :=
  let global_channel :=
    Channel.global.add_message (ChatMessage.system ("Welcome to GhostWire, " ++ username ++ "!") now)
  { username := username
    channels := insertCh "global" global_channel []
    active_channel := "global"
    selected_channel := 0
    input := ""
    input_cursor := 0
    input_mode := .Normal
    users := []
    selected_user := 0
    scroll_position := 0
    telemetry := Telemetry.default
    is_connected := false
    should_quit := false }

/-- Embedding of `App::add_message`: append to the active channel (if it
exists) and auto-scroll to the bottom. -/
def App.scroll_to_bottom (app : App) : App :=
  match lookupCh app.active_channel app.channels with
  | some ch => { app with scroll_position := ch.messages.length - 1 }
  | none => app

/-- Embedding of `App::add_message_to_channel`: auto-create a DM channel
for an unseen well-formed `dm:user1:user2` id, then append the message
to the channel if present, bumping the unread count when the channel is
not active and auto-scrolling when it is. -/
def App.add_message_to_channel (app : App) (channel_id : String) (message : ChatMessage) : App :=
  let app1 :=
    if strStartsWith "dm:" channel_id && !(containsCh channel_id app.channels) then
      let parts := strSplit ':' channel_id
      if parts.length = 3 then
        let other_user := if parts.getD 1 "" = app.username then parts.getD 2 "" else parts.getD 1 ""
        { app with channels := insertCh channel_id (Channel.dm app.username other_user) app.channels }
      else app
    else app
  match lookupCh channel_id app1.channels with
  | some _ =>
    let upd := fun ch =>
      let ch2 := Channel.add_message ch message
      if channel_id ≠ app1.active_channel then { ch2 with unread_count := ch2.unread_count + 1 }
      else ch2
    let app2 := { app1 with channels := updCh channel_id upd app1.channels }
    if channel_id ≠ app1.active_channel then app2 else app2.scroll_to_bottom
  | none => app1

/-- Embedding of `App::add_message` (append to the active channel, then
auto-scroll). -/
def App.add_message (app : App) (message : ChatMessage) : App :=
  match lookupCh app.active_channel app.channels with
  | some _ =>
    let app2 := { app with channels := updCh app.active_channel (fun ch => ch.add_message message) app.channels }
    app2.scroll_to_bottom
  | none => app

/-- Number of bytes in the UTF-8 encoding of a character (Rust
`char::len_utf8`). -/
def utf8Len (c : Char) : Nat :=
  if c.val < 0x80 then 1
  else if c.val < 0x800 then 2
  else if c.val < 0x10000 then 3
  else 4

/-- Byte length of a character sequence under UTF-8: this is what Rust
`String::len` returns, and what the code's `input_cursor` indexes
into. -/
def utf8Length : List Char → Nat
  | [] => 0
  | c :: cs => utf8Len c + utf8Length cs

/-- Insertion of a character at a byte offset of a UTF-8 string (Rust
`String::insert`): `none` models the panic raised when the offset is
out of bounds or falls inside a character's multi-byte encoding. -/
def insertUtf8 (i : Nat) (c : Char) : List Char → Option (List Char)
  | [] => if i = 0 then some [c] else none
  | d :: cs =>
    if i = 0 then some (c :: d :: cs)
    else if i < utf8Len d then none
    else (insertUtf8 (i - utf8Len d) c cs).map (fun r => d :: r)

/-- Removal of the character starting at a byte offset of a UTF-8
string (Rust `String::remove`): `none` models the panic raised when
the offset is out of bounds or not at a character boundary. -/
def removeUtf8 (i : Nat) : List Char → Option (List Char)
  | [] => none
  | d :: cs =>
    if i = 0 then some cs
    else if i < utf8Len d then none
    else (removeUtf8 (i - utf8Len d) cs).map (fun r => d :: r)

/-- Embedding of `App::enter_edit_mode`: `input.len()` is the buffer's
byte length. -/
def App.enter_edit_mode (app : App) : App :=
  { app with input_mode := .Editing, input_cursor := utf8Length app.input.data }

/-- Embedding of `App::exit_edit_mode`. -/
def App.exit_edit_mode (app : App) : App :=
  { app with input_mode := .Normal }

/-- Embedding of `App::input_char`: `String::insert` at the byte
cursor, then `input_cursor += 1` — one byte, whatever the width of the
inserted character.  `none` is the insert's panic. -/
def App.input_char (app : App) (c : Char) : Option App :=
  (insertUtf8 app.input_cursor c app.input.data).map
    (fun l => { app with input := String.mk l, input_cursor := app.input_cursor + 1 })

/-- Embedding of `App::input_backspace`: `String::remove` at byte
offset `input_cursor - 1` when the cursor is positive.  `none` is the
remove's panic. -/
def App.input_backspace (app : App) : Option App :=
  if app.input_cursor > 0 then
    (removeUtf8 (app.input_cursor - 1) app.input.data).map
      (fun l => { app with input := String.mk l, input_cursor := app.input_cursor - 1 })
  else some app

/-- Embedding of `App::input_cursor_left`: the byte cursor moves back
one byte. -/
def App.input_cursor_left (app : App) : App :=
  if app.input_cursor > 0 then { app with input_cursor := app.input_cursor - 1 } else app

/-- Embedding of `App::input_cursor_right`: the bound is the buffer's
byte length. -/
def App.input_cursor_right (app : App) : App :=
  if app.input_cursor < utf8Length app.input.data then
    { app with input_cursor := app.input_cursor + 1 }
  else app

/-- Embedding of `App::take_input`: return the buffer and clear it. -/
def App.take_input (app : App) : String × App :=
  (app.input, { app with input := "", input_cursor := 0 })

/-- Embedding of `App::switch_channel`: when the channel exists, make it
active, scroll to the bottom, and clear its unread count. -/
def App.switch_channel (app : App) (channel_id : String) : App :=
  if containsCh channel_id app.channels then
    let app1 := { app with active_channel := channel_id }
    let app2 := app1.scroll_to_bottom
    { app2 with channels := updCh channel_id (fun ch => { ch with unread_count := 0 }) app2.channels }
  else app

/-- Embedding of `App::open_dm`: build the DM channel, insert it when
absent, and switch to it. -/
def App.open_dm (app : App) (other_user : String) : App :=
  let channel := Channel.dm app.username other_user
  let channel_id := channel.id
  let app1 :=
    if !(containsCh channel_id app.channels) then
      { app with channels := insertCh channel_id channel app.channels }
    else app
  app1.switch_channel channel_id

/-! ### Client network layer: `client/src/network.rs` and the Enter key
handler of `client/src/main.rs` -/

/-- Embedding of `NetworkEvent`. -/
inductive NetworkEvent where
  | Connected
  | Disconnected
  | Message (sender content : String) (timestamp : Int) (channel_id : String)
  | UserJoined (username : String)
  | UserLeft (username : String)
  | SystemMessage (content : String)
  | Error (message : String)
deriving DecidableEq

/-- Embedding of `NetworkCommand`. -/
inductive NetworkCommand where
  | SendMessage (content : String) (channel_id : String)
  | Authenticate (username : String)
  | Disconnect
deriving DecidableEq

/-- Embedding of `handle_wire_message`: classify an inbound envelope
into the event the bridge emits. -/
def handle_wire_message (msg : WireMessage) : NetworkEvent :=
  match msg.msg_type with
  | .Message => .Message msg.meta.sender msg.payload msg.meta.timestamp msg.channel
  | .System =>
    if strContains msg.payload "joined" then .UserJoined msg.meta.sender
    else if strContains msg.payload "left" then .UserLeft msg.meta.sender
    else .SystemMessage msg.payload
  | .Auth => .UserJoined msg.meta.sender

/-- Embedding of the `SendMessage` arm of `network_task`: the wire
envelope the bridge emits for a `SendMessage{content, channel_id}`
command, stamped with the bridge's own identity and the wall clock. -/
def build_send_message (username content channel_id : String) (now : Int) : WireMessage :=
  { msg_type := .Message
    payload := content
    channel := channel_id
    meta := { sender := username, timestamp := now } }

/-- Embedding of the `Enter` arm of `handle_key_event` in `Editing`
mode (`client/src/main.rs`): take the input buffer; when non-empty,
enqueue a `SendMessage` command for the active channel, optimistically
append the message locally, and bump the sent counter; finally leave
editing mode.  Returns the new state and the enqueued command. -/
def handle_enter (app : App) (now : Int) : App × Option NetworkCommand :=
  let p := app.take_input
  if p.1 ≠ "" then
    let channel_id := p.2.active_channel
    let cmd := NetworkCommand.SendMessage p.1 channel_id
    let app2 := p.2.add_message (ChatMessage.new p.2.username p.1 false now)
    let app3 := { app2 with telemetry := { app2.telemetry with messages_sent := app2.telemetry.messages_sent + 1 } }
    (app3.exit_edit_mode, some cmd)
  else (p.2.exit_edit_mode, none)

/-! ### Operation sequences over the registry (for the counting claim) -/

/-- A register or unregister call on the relay registry. -/
inductive RegOp where
  | register
  | unregister (id : Nat)

/-- Application of one registry operation. -/
def applyRegOp (st : RelayState) : RegOp → RelayState
  | .register => (st.register_client).1
  | .unregister id => st.unregister_client id

/-- Sequential execution of registry operations from a state. -/
def runRegOps (st : RelayState) (ops : List RegOp) : RelayState :=
  ops.foldl applyRegOp st

/-- Reference count of the specification: the step tracks the ids
registered so far and not yet unregistered, together with the id
counter. -/
def pendingStep : List Nat × Nat → RegOp → List Nat × Nat
  | (ids, n), .register => (ids ++ [n], n + 1)
  | (ids, n), .unregister id => (ids.filter (fun x => x != id), n)

/-- The ids registered and not yet unregistered after a sequence of
operations from a fresh relay, paired with the id counter. -/
def pendingAfter (ops : List RegOp) : List Nat × Nat :=
  ops.foldl pendingStep ([], 0)

/-- One recipient's fate under `broadcast` from `fromId`: the sender is
untouched, an open recipient receives one appended copy, a closed one
is dropped. -/
def broadcastStep (fromId : Nat) (content : String) (e : ClientEntry) : Option ClientEntry :=
  if e.id = fromId then some e
  else if e.isOpen = true then some { e with queue := e.queue ++ [content] } else none

/-! ### Concrete states used by the witnesses -/

/-- Three open clients 1, 2, 3 as in the relay fan-out scenario. -/
def threeClients : RelayState :=
  { clients := [⟨1, true, []⟩, ⟨2, true, []⟩, ⟨3, true, []⟩], nextClientId := 4 }

/-- One open client and one whose queue has been closed. -/
def oneClosedClient : RelayState :=
  { clients := [⟨1, true, []⟩, ⟨2, false, []⟩], nextClientId := 5 }

/-- A channel filled to exactly its capacity. -/
def capChannel : Channel :=
  { Channel.global with messages := List.replicate MAX_MESSAGES (ChatMessage.system "x" 0) }

/-- A fresh message used when appending past capacity. -/
def capMessage : ChatMessage :=
  ChatMessage.new "alice" "overflow" false 2

/-- Alice's app after one inbound DM from bob landed in a fresh
pairwise channel. -/
def dmApp : App :=
  (App.new "alice" 0).add_message_to_channel "dm:alice:bob" (ChatMessage.new "bob" "yo" false 1)

/-- The pairwise channel held by `dmApp`. -/
def dmChannelEntry : Channel :=
  { id := "dm:alice:bob", channel_type := .DirectMessage "bob"
    messages := [ChatMessage.new "bob" "yo" false 1], unread_count := 1 }

/-- Alice's app while typing "hi" in editing mode. -/
def editingApp : App :=
  { App.new "alice" 0 with input := "hi", input_cursor := 2, input_mode := .Editing }

/-- The global channel of a fresh app for alice. -/
def aliceGlobalChannel : Channel :=
  Channel.global.add_message (ChatMessage.system "Welcome to GhostWire, alice!" 0)

/-! ### Helper lemmas about the relay -/

/-- Fan-out rewrites queues but leaves every entry's id in place. -/
lemma fanOutPass_map_id (f : Nat) (c : String) (cs : List ClientEntry) :
    (fanOutPass f c cs).map ClientEntry.id = cs.map ClientEntry.id := by
  induction cs with
  | nil => rfl
  | cons e cs ih =>
    simp only [fanOutPass, List.map_cons] at ih ⊢
    rw [ih]
    split <;> rfl

/-- Every failed id comes from the registry snapshot. -/
lemma mem_failedClients {f : Nat} {cs : List ClientEntry} {x : Nat}
    (hx : x ∈ failedClients f cs) : x ∈ cs.map ClientEntry.id := by
  unfold failedClients at hx
  rcases List.mem_map.mp hx with ⟨e, he, rfl⟩
  exact List.mem_map.mpr ⟨e, (List.mem_filter.mp he).1, rfl⟩

/-- Pointwise description of a broadcast over a registry with distinct
ids: each entry is transformed by `broadcastStep`. -/
lemma broadcastClients_find? (f : Nat) (c : String) (cs : List ClientEntry)
    (h : (cs.map ClientEntry.id).Nodup) (tid : Nat) :
    (broadcastClients f c cs).find? (fun e => e.id == tid)
      = (cs.find? (fun e => e.id == tid)).bind (broadcastStep f c) := by
  induction cs with
  | nil => rfl
  | cons e cs ih =>
    simp only [List.map_cons, List.nodup_cons, List.mem_map] at h
    obtain ⟨hid, hnd⟩ := h
    have hnotin : e.id ∉ cs.map ClientEntry.id := by
      intro hmem
      exact hid (List.mem_map.mp hmem |>.elim (fun x hx => ⟨x, hx.1, hx.2⟩))
    have hF : e.id ∉ failedClients f cs := fun hmem => hnotin (mem_failedClients hmem)
    have hfail_cons : failedClients f (e :: cs)
        = if (decide (e.id ≠ f) && !e.isOpen) = true then e.id :: failedClients f cs
          else failedClients f cs := by
      unfold failedClients
      rw [List.filter_cons]
      split <;> simp_all
    have hfan_cons : fanOutPass f c (e :: cs)
        = (if e.id ≠ f ∧ e.isOpen = true then { e with queue := e.queue ++ [c] } else e)
            :: fanOutPass f c cs := by
      simp [fanOutPass]
    by_cases hfailed : e.id ≠ f ∧ e.isOpen = false
    · -- head entry's queue is closed: removed by phase 2
      have hcond : (decide (e.id ≠ f) && !e.isOpen) = true := by
        simp [hfailed.1, hfailed.2]
      have hge : (if e.id ≠ f ∧ e.isOpen = true then { e with queue := e.queue ++ [c] } else e)
          = e := by
        simp [hfailed.2]
      unfold broadcastClients
      rw [hfan_cons, hfail_cons, if_pos hcond, hge, List.filter_cons]
      have hrm : ((e.id :: failedClients f cs).contains e.id) = true := by
        simp
      rw [if_neg (by simp [hrm])]
      have htail : (fanOutPass f c cs).filter
            (fun x => !((e.id :: failedClients f cs).contains x.id))
          = (fanOutPass f c cs).filter (fun x => !((failedClients f cs).contains x.id)) := by
        apply List.filter_congr
        intro x hx
        have hxid : x.id ∈ cs.map ClientEntry.id := by
          rw [← fanOutPass_map_id f c cs]
          exact List.mem_map.mpr ⟨x, hx, rfl⟩
        have hne : x.id ≠ e.id := fun hEq => hnotin (hEq ▸ hxid)
        simp [List.contains_cons, hne, Ne.symm hne]
      rw [htail]
      have ihr := ih hnd
      by_cases htid : e.id = tid
      · subst htid
        have : cs.find? (fun x => x.id == e.id) = none := by
          rw [List.find?_eq_none]
          intro x hx hxe
          exact hnotin (List.mem_map.mpr ⟨x, hx, by simpa using hxe⟩)
        rw [List.find?_cons_of_pos _ (by simp), show (broadcastClients f c cs
            = (fanOutPass f c cs).filter (fun x => !((failedClients f cs).contains x.id)))
            from rfl] at *
        rw [ihr, this]
        simp [broadcastStep, hfailed.1, hfailed.2]
      · rw [List.find?_cons_of_neg _ (by simp [htid])]
        exact ihr.trans rfl
    · -- head entry survives phase 2
      have hcond : (decide (e.id ≠ f) && !e.isOpen) = false := by
        by_cases hf : e.id = f
        · simp [hf]
        · have hop : e.isOpen = true := by
            cases hiso : e.isOpen
            · exact absurd ⟨hf, hiso⟩ hfailed
            · rfl
          simp [hop]
      unfold broadcastClients
      rw [hfan_cons, hfail_cons, if_neg (by simp only [hcond]; exact Bool.false_ne_true),
          List.filter_cons]
      set ge := (if e.id ≠ f ∧ e.isOpen = true then { e with queue := e.queue ++ [c] } else e)
        with hge
      have hgeid : ge.id = e.id := by
        rw [hge]; split <;> rfl
      have hkeep : (!((failedClients f cs).contains ge.id)) = true := by
        rw [hgeid]
        simpa using hF
      rw [if_pos hkeep]
      by_cases htid : e.id = tid
      · subst htid
        rw [List.find?_cons_of_pos _ (by simp [hgeid]),
            List.find?_cons_of_pos _ (by simp)]
        have : broadcastStep f c e = some ge := by
          rw [hge]
          unfold broadcastStep
          by_cases hf : e.id = f
          · simp [hf]
          · have hop : e.isOpen = true := by
              cases hiso : e.isOpen
              · exact absurd ⟨hf, hiso⟩ hfailed
              · rfl
            simp [hf, hop]
        simp [this]
      · rw [List.find?_cons_of_neg _ (by simp [hgeid, htid]),
            List.find?_cons_of_neg _ (by simp [htid])]
        exact ih hnd

/-- Projecting ids commutes with filtering an id out. -/
lemma map_id_filter_ne (cs : List ClientEntry) (n : Nat) :
    (cs.filter (fun e => e.id != n)).map ClientEntry.id
      = (cs.map ClientEntry.id).filter (fun x => x != n) := by
  induction cs with
  | nil => rfl
  | cons e cs ih =>
    rw [List.map_cons, List.filter_cons, List.filter_cons]
    by_cases hx : (e.id != n) = true
    · rw [if_pos hx, if_pos hx, List.map_cons, ih]
    · rw [if_neg hx, if_neg hx, ih]

/-- Executing registry operations keeps the id projection of the client
map in lock step with the specification's pending-id list, keeps the
counter above every live id, and keeps the ids distinct. -/
lemma runRegOps_invariant (ops : List RegOp) (st : RelayState) (ids : List Nat) (n : Nat)
    (hids : st.clients.map ClientEntry.id = ids) (hn : st.nextClientId = n)
    (hlt : ∀ x ∈ ids, x < n) (hnd : ids.Nodup) :
    (runRegOps st ops).clients.map ClientEntry.id = (ops.foldl pendingStep (ids, n)).1 ∧
    (runRegOps st ops).nextClientId = (ops.foldl pendingStep (ids, n)).2 ∧
    (∀ x ∈ (ops.foldl pendingStep (ids, n)).1, x < (ops.foldl pendingStep (ids, n)).2) ∧
    (ops.foldl pendingStep (ids, n)).1.Nodup := by
  induction ops generalizing st ids n with
  | nil => exact ⟨hids, hn, hlt, hnd⟩
  | cons op ops ih =>
    cases op with
    | register =>
      have hfilter : st.clients.filter (fun e => e.id != st.nextClientId) = st.clients := by
        apply List.filter_eq_self.mpr
        intro e he
        have : e.id ∈ ids := hids ▸ List.mem_map.mpr ⟨e, he, rfl⟩
        have := hlt _ this
        simp [hn, Nat.ne_of_lt this]
      have hstep : runRegOps st (.register :: ops)
          = runRegOps (st.register_client).1 ops := rfl
      have hcl : (st.register_client).1.clients.map ClientEntry.id = ids ++ [n] := by
        unfold RelayState.register_client RelayState.next_id
        simp only [hfilter]
        rw [List.map_append, hids, hn]
        rfl
      have hnx : (st.register_client).1.nextClientId = n + 1 := by
        unfold RelayState.register_client RelayState.next_id
        simp [hn]
      have hlt' : ∀ x ∈ ids ++ [n], x < n + 1 := by
        intro x hx
        rcases List.mem_append.mp hx with hx | hx
        · exact Nat.lt_succ_of_lt (hlt _ hx)
        · simp at hx
          omega
      have hnd' : (ids ++ [n]).Nodup := by
        rw [List.nodup_append]
        exact ⟨hnd, List.nodup_singleton n, by
          intro x hx
          have := hlt _ hx
          simp
          omega⟩
      rw [hstep]
      simpa [pendingStep] using ih (st.register_client).1 (ids ++ [n]) (n + 1) hcl hnx hlt' hnd'
    | unregister id =>
      have hstep : runRegOps st (.unregister id :: ops)
          = runRegOps (st.unregister_client id) ops := rfl
      have hcl : (st.unregister_client id).clients.map ClientEntry.id
          = ids.filter (fun x => x != id) := by
        unfold RelayState.unregister_client
        rw [map_id_filter_ne, hids]
      have hnx : (st.unregister_client id).nextClientId = n := hn
      have hlt' : ∀ x ∈ ids.filter (fun x => x != id), x < n := by
        intro x hx
        exact hlt _ (List.mem_filter.mp hx).1
      rw [hstep]
      simpa [pendingStep] using ih (st.unregister_client id) (ids.filter (fun x => x != id)) n
        hcl hnx hlt' (hnd.filter _)

/-! ### Helper lemmas about the client state model -/

/-- Updating a key's channel rewrites exactly that key's lookup. -/
lemma lookupCh_updCh_self (k : String) (f : Channel → Channel) (l : List (String × Channel)) :
    lookupCh k (updCh k f l) = (lookupCh k l).map f := by
  induction l with
  | nil => rfl
  | cons p l ih =>
    by_cases hp : p.1 = k
    · simp [updCh, lookupCh, hp]
    · simp only [updCh, List.map_cons, if_neg hp]
      simp only [lookupCh] at ih ⊢
      rw [List.find?_cons_of_neg _ (by simp [hp]), List.find?_cons_of_neg _ (by simp [hp])]
      exact ih

/-- Updating a key's channel leaves every other key's lookup alone. -/
lemma lookupCh_updCh_ne {k' k : String} (hk : k' ≠ k) (f : Channel → Channel)
    (l : List (String × Channel)) :
    lookupCh k' (updCh k f l) = lookupCh k' l := by
  induction l with
  | nil => rfl
  | cons p l ih =>
    by_cases hp : p.1 = k
    · simp only [updCh, List.map_cons, if_pos hp]
      simp only [lookupCh] at ih ⊢
      rw [List.find?_cons_of_neg _ (by simp [hp, Ne.symm hk]),
          List.find?_cons_of_neg _ (by simp [hp, Ne.symm hk])]
      exact ih
    · simp only [updCh, List.map_cons, if_neg hp]
      by_cases hq : p.1 = k'
      · simp only [lookupCh]
        rw [List.find?_cons_of_pos _ (by simp [hq]), List.find?_cons_of_pos _ (by simp [hq])]
      · simp only [lookupCh] at ih ⊢
        rw [List.find?_cons_of_neg _ (by simp [hq]), List.find?_cons_of_neg _ (by simp [hq])]
        exact ih

/-- The message just appended is always the newest one, whether or not
the ring evicted its oldest entry. -/
lemma add_message_getLast? (ch : Channel) (m : ChatMessage) :
    (ch.add_message m).messages.getLast? = some m := by
  simp only [Channel.add_message]
  split
  · cases hms : ch.messages with
    | nil =>
      rename_i hlen
      rw [hms] at hlen
      simp [MAX_MESSAGES] at hlen
    | cons a rest => simp [hms, List.getLast?_append]
  · simp [List.getLast?_append]

/-- Appending preserves the capacity bound. -/
lemma add_message_le (ch : Channel) (m : ChatMessage)
    (h : ch.messages.length ≤ MAX_MESSAGES) :
    (ch.add_message m).messages.length ≤ MAX_MESSAGES := by
  simp only [Channel.add_message]
  split
  · rename_i hlen
    simp at hlen ⊢
    omega
  · rename_i hlen
    simp at hlen ⊢
    omega

/-- Lexicographic character comparison is asymmetric. -/
lemma charsLt_asymm {as bs : List Char} (h : charsLt as bs = true) : charsLt bs as = false := by
  induction as generalizing bs with
  | nil =>
    cases bs with
    | nil => simp [charsLt] at h
    | cons b bs => simp [charsLt]
  | cons a as ih =>
    cases bs with
    | nil => simp [charsLt] at h
    | cons b bs =>
      simp only [charsLt] at h ⊢
      by_cases hab : a < b
      · have : ¬(b < a) := lt_asymm hab
        simp [this, hab]
      · by_cases hba : b < a
        · simp [hab, hba] at h
        · simp only [if_neg hab, if_neg hba] at h
          simp [hab, hba, ih h]

/-- Two character sequences that are mutually not-less are equal. -/
lemma charsLt_total_eq {as bs : List Char} (h1 : charsLt as bs = false)
    (h2 : charsLt bs as = false) : as = bs := by
  induction as generalizing bs with
  | nil =>
    cases bs with
    | nil => rfl
    | cons b bs => simp [charsLt] at h1
  | cons a as ih =>
    cases bs with
    | nil => simp [charsLt] at h2
    | cons b bs =>
      simp only [charsLt] at h1 h2
      by_cases hab : a < b
      · simp [hab] at h1
      · by_cases hba : b < a
        · simp [hba, hab] at h2
        · have hEq : a = b := le_antisymm (not_lt.mp hba) (not_lt.mp hab)
          simp only [if_neg hab, if_neg hba] at h1
          simp only [if_neg hba, if_neg hab] at h2
          rw [hEq, ih h1 h2]

/-- Scrolling only moves the scroll position, never the channel map. -/
lemma scroll_channels (app : App) : app.scroll_to_bottom.channels = app.channels := by
  unfold App.scroll_to_bottom
  split <;> rfl

/-- When the active channel exists, `add_message` rewrites exactly its
entry in the channel map. -/
lemma add_message_channels_some (app : App) (m : ChatMessage) (ch : Channel)
    (h : lookupCh app.active_channel app.channels = some ch) :
    (app.add_message m).channels
      = updCh app.active_channel (fun c0 => c0.add_message m) app.channels := by
  unfold App.add_message
  rw [h]
  exact scroll_channels _

/-! ### Claim theorems -/

/-- C1: for every registry state (with the distinct ids a `HashMap`
guarantees) and every broadcast, the originating client's entry is left
untouched — in particular its queue never receives the payload — and
every other registered client whose queue is still open has exactly one
copy of the unchanged payload text appended to its queue. -/
theorem broadcast_excludes_sender_and_delivers_single_copy
    (st : RelayState) (msg : BroadcastMessage)
    (h : (st.clients.map ClientEntry.id).Nodup) :
    (∀ e, lookupClient st msg.fromId = some e →
        lookupClient (st.broadcast msg) msg.fromId = some e) ∧
    (∀ rid e, rid ≠ msg.fromId → lookupClient st rid = some e → e.isOpen = true →
        lookupClient (st.broadcast msg) rid
          = some { e with queue := e.queue ++ [msg.content] }) := by
  constructor
  · intro e he
    have hid : e.id = msg.fromId := by simpa using List.find?_some he
    unfold lookupClient at he ⊢
    rw [show (st.broadcast msg).clients = broadcastClients msg.fromId msg.content st.clients
        from rfl]
    rw [broadcastClients_find? _ _ _ h, he]
    simp [broadcastStep, hid]
  · intro rid e hne he hop
    have hid : e.id = rid := by simpa using List.find?_some he
    unfold lookupClient at he ⊢
    rw [show (st.broadcast msg).clients = broadcastClients msg.fromId msg.content st.clients
        from rfl]
    rw [broadcastClients_find? _ _ _ h, he]
    simp [broadcastStep, hid, hne, hop]

/-- Witness for C1: with clients 1, 2, 3 registered and client 3
broadcasting "hi", client 1 receives exactly one copy and client 3
receives none. -/
theorem broadcast_excludes_sender_and_delivers_single_copy_witness :
    lookupClient (threeClients.broadcast ⟨3, "hi"⟩) 1 = some ⟨1, true, ["hi"]⟩ ∧
    lookupClient (threeClients.broadcast ⟨3, "hi"⟩) 3 = some ⟨3, true, []⟩ := by
  refine ⟨(broadcast_excludes_sender_and_delivers_single_copy threeClients ⟨3, "hi"⟩
      (by decide)).2 1 ⟨1, true, []⟩ (by decide) (by decide) rfl,
    (broadcast_excludes_sender_and_delivers_single_copy threeClients ⟨3, "hi"⟩
      (by decide)).1 ⟨3, true, []⟩ (by decide)⟩

/-- C2: for every broadcast over a registry with distinct ids, a
recipient whose queue was closed before the broadcast is absent from
the registry immediately afterwards, while a recipient whose enqueue
succeeded remains registered with the payload delivered; `broadcast`
is a total function into `RelayState`, so no delivery failure reaches
the caller. -/
theorem broadcast_prunes_closed_recipients
    (st : RelayState) (msg : BroadcastMessage)
    (h : (st.clients.map ClientEntry.id).Nodup)
    (rid : Nat) (e : ClientEntry) (hne : rid ≠ msg.fromId)
    (he : lookupClient st rid = some e) :
    (e.isOpen = false → lookupClient (st.broadcast msg) rid = none) ∧
    (e.isOpen = true → lookupClient (st.broadcast msg) rid
        = some { e with queue := e.queue ++ [msg.content] }) := by
  have hid : e.id = rid := by simpa using List.find?_some he
  constructor
  · intro hcl
    unfold lookupClient at he ⊢
    rw [show (st.broadcast msg).clients = broadcastClients msg.fromId msg.content st.clients
        from rfl]
    rw [broadcastClients_find? _ _ _ h, he]
    simp [broadcastStep, hid, hne, hcl]
  · intro hop
    unfold lookupClient at he ⊢
    rw [show (st.broadcast msg).clients = broadcastClients msg.fromId msg.content st.clients
        from rfl]
    rw [broadcastClients_find? _ _ _ h, he]
    simp [broadcastStep, hid, hne, hop]

/-- Witness for C2: broadcasting from client 1 while client 2's queue
is closed removes client 2 from the registry. -/
theorem broadcast_prunes_closed_recipients_witness :
    lookupClient (oneClosedClient.broadcast ⟨1, "x"⟩) 2 = none :=
  (broadcast_prunes_closed_recipients oneClosedClient ⟨1, "x"⟩ (by decide) 2 ⟨2, false, []⟩
    (by decide) (by decide)).1 rfl

/-- C3: after any sequence of register/unregister operations from a
fresh relay, `client_count` equals the number of distinct client ids
registered and not yet unregistered, and `unregister_client` is
idempotent on every state. -/
theorem client_count_tracks_registry_and_unregister_idempotent :
    (∀ ops : List RegOp,
      (runRegOps RelayState.new ops).client_count = (pendingAfter ops).1.length ∧
      (pendingAfter ops).1.Nodup) ∧
    (∀ (st : RelayState) (id : Nat),
      (st.unregister_client id).unregister_client id = st.unregister_client id) := by
  constructor
  · intro ops
    obtain ⟨hids, _, _, hnd⟩ :=
      runRegOps_invariant ops RelayState.new [] 0 rfl rfl (by simp) List.nodup_nil
    refine ⟨?_, hnd⟩
    unfold RelayState.client_count pendingAfter
    rw [← hids, List.length_map]
  · intro st id
    unfold RelayState.unregister_client
    simp [List.filter_filter]

/-- C4: starting from any channel within capacity, no sequence of
`add_message` calls pushes the message ring beyond `MAX_MESSAGES`; and
appending to a channel holding exactly `MAX_MESSAGES` keeps the size at
`MAX_MESSAGES` while evicting exactly the oldest prior message, leaving
the remaining ones in order. -/
theorem channel_capacity_bound_and_fifo_eviction (ch : Channel) (m : ChatMessage) :
    (∀ ms : List ChatMessage, ch.messages.length ≤ MAX_MESSAGES →
        (ms.foldl Channel.add_message ch).messages.length ≤ MAX_MESSAGES) ∧
    (ch.messages.length = MAX_MESSAGES →
        (ch.add_message m).messages = ch.messages.tail ++ [m] ∧
        (ch.add_message m).messages.length = MAX_MESSAGES) := by
  constructor
  · intro ms
    induction ms generalizing ch with
    | nil => exact fun h => h
    | cons m0 ms ih =>
      intro h
      exact ih _ (add_message_le ch m0 h)
  · intro hlen
    have hgt : (ch.messages ++ [m]).length > MAX_MESSAGES := by
      simp [hlen]
    constructor
    · simp only [Channel.add_message]
      rw [if_pos hgt]
      cases hms : ch.messages with
      | nil =>
        rw [hms] at hlen
        simp [MAX_MESSAGES] at hlen
      | cons a rest => simp [hms]
    · simp only [Channel.add_message]
      rw [if_pos hgt]
      simp
      omega

/-- Witness for C4: a channel holding exactly 1000 messages stays at
1000 after one more append, with the oldest message evicted, and the
bound holds along a concrete call sequence from the global channel. -/
theorem channel_capacity_bound_and_fifo_eviction_witness :
    (([capMessage].foldl Channel.add_message Channel.global).messages.length ≤ MAX_MESSAGES) ∧
    (capChannel.add_message capMessage).messages = capChannel.messages.tail ++ [capMessage] ∧
    (capChannel.add_message capMessage).messages.length = MAX_MESSAGES := by
  refine ⟨(channel_capacity_bound_and_fifo_eviction Channel.global capMessage).1 [capMessage]
      (by simp [Channel.global]), ?_, ?_⟩
  · exact ((channel_capacity_bound_and_fifo_eviction capChannel capMessage).2
      (by rw [show capChannel.messages = List.replicate MAX_MESSAGES (ChatMessage.system "x" 0)
        from rfl, List.length_replicate])).1
  · exact ((channel_capacity_bound_and_fifo_eviction capChannel capMessage).2
      (by rw [show capChannel.messages = List.replicate MAX_MESSAGES (ChatMessage.system "x" 0)
        from rfl, List.length_replicate])).2

/-- C5: switching to an existing channel C makes C active, zeroes C's
unread count, resets the scroll position to C's newest message, and
leaves every other channel's entry — its unread count and message
list — unchanged. -/
theorem switch_channel_clears_unread_and_preserves_others
    (app : App) (C : String) (ch : Channel)
    (h : lookupCh C app.channels = some ch) :
    (app.switch_channel C).active_channel = C ∧
    lookupCh C (app.switch_channel C).channels = some { ch with unread_count := 0 } ∧
    (app.switch_channel C).scroll_position = ch.messages.length - 1 ∧
    (∀ k, k ≠ C → lookupCh k (app.switch_channel C).channels = lookupCh k app.channels) := by
  have hc : containsCh C app.channels = true := by
    unfold containsCh
    unfold lookupCh at h
    cases hf : app.channels.find? (fun p => p.1 == C) with
    | none => rw [hf] at h; simp at h
    | some q => simp
  have hsw : app.switch_channel C =
      { app with active_channel := C
                 scroll_position := ch.messages.length - 1
                 channels := updCh C (fun c0 => { c0 with unread_count := 0 }) app.channels } := by
    unfold App.switch_channel
    rw [if_pos hc]
    unfold App.scroll_to_bottom
    simp only
    rw [show lookupCh C app.channels = some ch from h]
  refine ⟨by rw [hsw], ?_, by rw [hsw], ?_⟩
  · rw [hsw]
    simp only
    rw [lookupCh_updCh_self, h]
    rfl
  · intro k hk
    rw [hsw]
    simp only
    rw [lookupCh_updCh_ne hk]

/-- Witness for C5: in alice's app holding an unread DM channel,
switching to it activates it and zeroes its unread count while the
global channel's entry is untouched. -/
theorem switch_channel_clears_unread_and_preserves_others_witness :
    (dmApp.switch_channel "dm:alice:bob").active_channel = "dm:alice:bob" ∧
    lookupCh "dm:alice:bob" (dmApp.switch_channel "dm:alice:bob").channels
        = some { dmChannelEntry with unread_count := 0 } ∧
    lookupCh "global" (dmApp.switch_channel "dm:alice:bob").channels
        = lookupCh "global" dmApp.channels := by
  obtain ⟨h1, h2, h3, h4⟩ := switch_channel_clears_unread_and_preserves_others
    dmApp "dm:alice:bob" dmChannelEntry (by decide)
  exact ⟨h1, h2, h4 "global" (by decide)⟩

/-- C6: the direct-message channel constructor is symmetric in its two
usernames — `dm u v` and `dm v u` produce the identical channel id —
and on `"alice"`/`"bob"` that id is the sorted pair joined as
`"dm:alice:bob"`. -/
theorem dm_channel_id_symmetric (u v : String) :
    (Channel.dm u v).id = (Channel.dm v u).id ∧
    (Channel.dm "alice" "bob").id = "dm:alice:bob" ∧
    (Channel.dm "bob" "alice").id = "dm:alice:bob" := by
  refine ⟨?_, by decide, by decide⟩
  unfold Channel.dm
  cases hlt : strLt u v with
  | true =>
    have hba : strLt v u = false := charsLt_asymm hlt
    rw [hba]
    simp [hlt]
  | false =>
    cases hlt2 : strLt v u with
    | true => simp [hlt, hlt2]
    | false =>
      have hEq : u.data = v.data := charsLt_total_eq hlt hlt2
      have : u = v := by
        cases u; cases v
        exact congrArg String.mk hEq
      subst this
      simp [hlt]

/-- C7: an inbound `SYS` envelope whose payload matches the join
pattern (contains `"joined"`) yields a UserJoined event carrying
`meta.sender`; one matching the leave pattern (contains `"left"`, with
the join pattern taking precedence) yields UserLeft; any other `SYS`
payload yields a SystemMessage with the payload text. -/
theorem sys_envelope_join_leave_classification (msg : WireMessage)
    (hs : msg.msg_type = MessageType.System) :
    (strContains msg.payload "joined" = true →
        handle_wire_message msg = .UserJoined msg.meta.sender) ∧
    (strContains msg.payload "joined" = false → strContains msg.payload "left" = true →
        handle_wire_message msg = .UserLeft msg.meta.sender) ∧
    (strContains msg.payload "joined" = false → strContains msg.payload "left" = false →
        handle_wire_message msg = .SystemMessage msg.payload) := by
  obtain ⟨t, p, c, meta⟩ := msg
  simp only at hs
  subst hs
  refine ⟨fun h1 => ?_, fun h1 h2 => ?_, fun h1 h2 => ?_⟩ <;>
    simp [handle_wire_message, h1]
  · simp [*]
  · simp [*]

/-- Witness for C7: the envelope with payload "bob joined the chat" and
sender "bob" yields a UserJoined event for "bob", not a generic
SystemMessage. -/
theorem sys_envelope_join_leave_classification_witness :
    handle_wire_message ⟨.System, "bob joined the chat", "global", ⟨"bob", 0⟩⟩
      = NetworkEvent.UserJoined "bob" :=
  (sys_envelope_join_leave_classification
    ⟨.System, "bob joined the chat", "global", ⟨"bob", 0⟩⟩ rfl).1 (by decide)

/-- C8: with the global channel active and "hi" in the input buffer,
the Enter handler enqueues `SendMessage "hi" "global"`; the bridge's
envelope for that command carries payload "hi", channel "global",
kind `MSG` and `meta.sender` equal to the client's own identity; and
the state model's global channel already ends with that message the
moment the handler returns — before any server reply arrives. -/
theorem send_message_envelope_and_optimistic_echo (app : App) (now : Int) (ch : Channel)
    (hact : app.active_channel = "global")
    (hin : app.input = "hi")
    (hch : lookupCh "global" app.channels = some ch) :
    (handle_enter app now).2 = some (NetworkCommand.SendMessage "hi" "global") ∧
    (build_send_message app.username "hi" "global" now).payload = "hi" ∧
    (build_send_message app.username "hi" "global" now).channel = "global" ∧
    (build_send_message app.username "hi" "global" now).meta.sender = app.username ∧
    (build_send_message app.username "hi" "global" now).msg_type = MessageType.Message ∧
    lookupCh "global" (handle_enter app now).1.channels
        = some (ch.add_message (ChatMessage.new app.username "hi" false now)) ∧
    (ch.add_message (ChatMessage.new app.username "hi" false now)).messages.getLast?
        = some (ChatMessage.new app.username "hi" false now) := by
  have hne : ("hi" : String) ≠ "" := by decide
  refine ⟨?_, rfl, rfl, rfl, rfl, ?_, add_message_getLast? ch _⟩
  · unfold handle_enter App.take_input
    simp only [hin]
    rw [if_pos hne]
    simp [hact]
  · have h1 : (handle_enter app now).1.channels
        = (App.add_message { app with input := "", input_cursor := 0 }
            (ChatMessage.new app.username "hi" false now)).channels := by
      unfold handle_enter App.take_input
      simp only [hin]
      rw [if_pos hne]
      rfl
    have hX : lookupCh ({ app with input := "", input_cursor := 0 } : App).active_channel
        ({ app with input := "", input_cursor := 0 } : App).channels = some ch := by
      rw [show ({ app with input := "", input_cursor := 0 } : App).active_channel
            = app.active_channel from rfl, hact]
      exact hch
    rw [h1, add_message_channels_some _ _ ch hX,
        show ({ app with input := "", input_cursor := 0 } : App).active_channel
          = app.active_channel from rfl, hact, lookupCh_updCh_self, hch]
    rfl

/-- Witness for C8: alice typing "hi" with the global channel active
produces the `SendMessage` command and the optimistic local echo. -/
theorem send_message_envelope_and_optimistic_echo_witness :
    (handle_enter editingApp 7).2 = some (NetworkCommand.SendMessage "hi" "global") ∧
    lookupCh "global" (handle_enter editingApp 7).1.channels
        = some (aliceGlobalChannel.add_message (ChatMessage.new "alice" "hi" false 7)) := by
  obtain ⟨h1, _, _, _, _, h6, _⟩ := send_message_envelope_and_optimistic_echo
    editingApp 7 aliceGlobalChannel rfl rfl (by decide)
  exact ⟨h1, h6⟩

/-- C9: a message addressed to a channel id that is neither a key of
the channel map nor a well-formed pairwise id (prefix "dm:" with
exactly three colon-separated parts) is silently discarded: the app
state is left entirely unchanged. -/
theorem add_message_to_unknown_channel_is_noop (app : App) (cid : String) (m : ChatMessage)
    (h1 : containsCh cid app.channels = false)
    (h2 : ¬(strStartsWith "dm:" cid = true ∧ (strSplit ':' cid).length = 3)) :
    app.add_message_to_channel cid m = app := by
  have hnone : app.channels.find? (fun p => p.1 == cid) = none := by
    unfold containsCh at h1
    cases hf : app.channels.find? (fun p => p.1 == cid) with
    | none => rfl
    | some q => rw [hf] at h1; simp at h1
  have hlk : lookupCh cid app.channels = none := by
    unfold lookupCh
    rw [hnone]
    rfl
  unfold App.add_message_to_channel
  by_cases hsw : strStartsWith "dm:" cid = true
  · have hlen : ¬((strSplit ':' cid).length = 3) := fun hl => h2 ⟨hsw, hl⟩
    simp only [hsw, h1, Bool.not_false, Bool.and_true, if_neg hlen, if_true, hlk]
  · simp only [Bool.not_eq_true] at hsw
    simp only [hsw, Bool.false_and, Bool.false_eq_true, if_false, hlk]

/-- Witness for C9: delivering to the unknown, non-pairwise id "nope"
leaves a fresh app for alice unchanged. -/
theorem add_message_to_unknown_channel_is_noop_witness :
    App.add_message_to_channel (App.new "alice" 0) "nope" (ChatMessage.new "bob" "y" false 1)
      = App.new "alice" 0 :=
  add_message_to_unknown_channel_is_noop (App.new "alice" 0) "nope"
    (ChatMessage.new "bob" "y" false 1) (by decide) (by decide)

/-- C10: the claimed cannot-panic property fails on the code.
`input_cursor` is a byte index into the UTF-8 `input` buffer, but
`input_char` advances it by one per typed character while a multi-byte
character occupies several bytes: typing `'é'` and then any second
character calls `String::insert` at byte offset 1, inside the two-byte
encoding of `'é'`, which panics.  Likewise re-entering edit mode with
`"é"` buffered sets the cursor to the byte length 2, and Backspace
calls `String::remove` at byte offset 1, inside the character.  `none`
is the embedded operation's panic. -/
theorem input_byte_cursor_panics_on_multibyte :
    ((App.new "u" 0).enter_edit_mode.input_char 'é').bind
        (fun a => a.input_char 'x') = none ∧
    ({ App.new "u" 0 with input := "é" } : App).enter_edit_mode.input_backspace = none := by
  decide
